import Mathlib

/-!
Verification development for the springs mass-spring-damper simulation
(`src/unnamed/part_000`).  The C code is shallowly embedded: C `double`
and `float` scalars become real numbers, raymath `Vector2` becomes the
`Vec2` structure, the fixed-capacity `forces` array together with its
`force_count` becomes a list of the first `force_count` entries, and a
`Spring`'s endpoint pointers into the owning `System`'s mass array become
indices into the system's mass list.
-/

set_option autoImplicit false

namespace Springs

noncomputable section

/-- Two-dimensional vector, modelling raymath's `Vector2` with real scalars. -/
@[ext]
structure Vec2 where
  x : ℝ
  y : ℝ

/-- The `FORCES_CAPACITY` constant of `src/unnamed/part_000`. -/
def FORCES_CAPACITY : Nat := 64

/-- The `SYSTEM_CAPACITY` constant of `src/unnamed/part_000`. -/
def SYSTEM_CAPACITY : Nat := 8096

/-- The `GRAVITATIONAL_ACCELERATION` constant `(Vector2){0.0f, 98.0f}`. -/
def GRAVITATIONAL_ACCELERATION : Vec2 := ⟨0, 98⟩

/-- raymath `Vector2Add`. -/
def Vector2Add (v w : Vec2) : Vec2 := ⟨v.x + w.x, v.y + w.y⟩

/-- raymath `Vector2Subtract`. -/
def Vector2Subtract (v w : Vec2) : Vec2 := ⟨v.x - w.x, v.y - w.y⟩

/-- raymath `Vector2Scale`. -/
def Vector2Scale (v : Vec2) (s : ℝ) : Vec2 := ⟨v.x * s, v.y * s⟩

/-- raymath `Vector2DotProduct`. -/
def Vector2DotProduct (v w : Vec2) : ℝ := v.x * w.x + v.y * w.y

/-- raymath `Vector2Length`: `sqrtf((v.x*v.x) + (v.y*v.y))`. -/
def Vector2Length (v : Vec2) : ℝ := Real.sqrt (v.x * v.x + v.y * v.y)

/-- Componentwise negation of a vector (raymath `Vector2Negate`). -/
def Vector2Negate (v : Vec2) : Vec2 := ⟨-v.x, -v.y⟩

/-- raymath `Vector2Normalize`: the vector scaled by the reciprocal of
its length.  raymath releases differ at a zero-length input (newer ones
guard the division and return the zero vector, older ones divide by zero,
producing IEEE non-finite components); over the reals division by zero is
zero, so this model yields the zero vector at zero length under either
reading and cannot express the non-finite case. -/
def Vector2Normalize (v : Vec2) : Vec2 :=
  let length := Real.sqrt (v.x * v.x + v.y * v.y)
  ⟨v.x * (1 / length), v.y * (1 / length)⟩

/-- The `Mass` struct: position, velocity, acceleration, the accumulated
force list (`forces` array up to `force_count`), the scalar mass and the
fixed flag. -/
structure Mass where
  position : Vec2
  velocity : Vec2
  acceleration : Vec2
  forces : List Vec2
  mass : ℝ
  fixed : Bool

/-- `mass_force_append`: rejects (leaving the mass unchanged) when the
force list is at `FORCES_CAPACITY`, otherwise appends the force. -/
def mass_force_append (m : Mass) (force : Vec2) : Mass :=
  if m.forces.length ≥ FORCES_CAPACITY then m
  else { m with forces := m.forces ++ [force] }

/-- `mass_reset_forces`: sets `force_count` to zero, i.e. clears the list. -/
def mass_reset_forces (m : Mass) : Mass := { m with forces := [] }

/-- `mass_update`: a fixed mass returns unchanged; otherwise the
acceleration is reinitialised to gravity, each accumulated force scaled by
`1 / mass` is added, and a semi-implicit Euler step updates velocity then
position (the position update uses the already-updated velocity). -/
def mass_update (m : Mass) (dt : ℝ) : Mass :=
  if m.fixed then m
  else
    let acceleration :=
      m.forces.foldl
        (fun acc force => Vector2Add acc (Vector2Scale force (1 / m.mass)))
        GRAVITATIONAL_ACCELERATION
    let velocity := Vector2Add m.velocity (Vector2Scale acceleration dt)
    let position := Vector2Add m.position (Vector2Scale velocity dt)
    { m with acceleration := acceleration, velocity := velocity, position := position }

/-- The `Spring` struct; the two endpoint pointers into the owning
system's mass array are modelled as indices `first` and `second`. -/
structure Spring where
  first : Nat
  second : Nat
  length : ℝ
  strength : ℝ
  dampening : ℝ

/-- The spring-force contribution `spring_update` appends to `first`:
`Vector2Scale(force_direction, strength * -displacement)` with
`displacement = length - |span|` and `span = second.position - first.position`. -/
def spring_force_on_first (sp : Spring) (fm sm : Mass) : Vec2 :=
  let span := Vector2Subtract sm.position fm.position
  let force_direction := Vector2Normalize span
  let displacement := sp.length - Vector2Length span
  Vector2Scale force_direction (sp.strength * -displacement)

/-- The spring-force contribution `spring_update` appends to `second`:
`Vector2Scale(force_direction, strength * displacement)`. -/
def spring_force_on_second (sp : Spring) (fm sm : Mass) : Vec2 :=
  let span := Vector2Subtract sm.position fm.position
  let force_direction := Vector2Normalize span
  let displacement := sp.length - Vector2Length span
  Vector2Scale force_direction (sp.strength * displacement)

/-- The displacement rate used by the dampener force:
`dot(first.velocity, direction) + -dot(second.velocity, direction)`. -/
def spring_displacement_rate (sp : Spring) (fm sm : Mass) : ℝ :=
  let span := Vector2Subtract sm.position fm.position
  let force_direction := Vector2Normalize span
  Vector2DotProduct fm.velocity force_direction
    + -(Vector2DotProduct sm.velocity force_direction)

/-- The dampener contribution `spring_update` appends to `first`:
`Vector2Scale(force_direction, dampening * -displacement_rate)`. -/
def spring_damp_on_first (sp : Spring) (fm sm : Mass) : Vec2 :=
  let span := Vector2Subtract sm.position fm.position
  let force_direction := Vector2Normalize span
  Vector2Scale force_direction (sp.dampening * -(spring_displacement_rate sp fm sm))

/-- The dampener contribution `spring_update` appends to `second`:
`Vector2Scale(force_direction, dampening * displacement_rate)`. -/
def spring_damp_on_second (sp : Spring) (fm sm : Mass) : Vec2 :=
  let span := Vector2Subtract sm.position fm.position
  let force_direction := Vector2Normalize span
  Vector2Scale force_direction (sp.dampening * spring_displacement_rate sp fm sm)

/-- `spring_update` acting on the two (distinct) endpoint masses: the four
appends happen in source order (spring force to first, to second, then
dampener force to first, to second).  All four force expressions read only
positions and velocities, which the interleaved appends never modify, so
evaluating them up front against the original endpoint states matches the
C order of evaluation exactly. -/
def spring_update (sp : Spring) (fm sm : Mass) : Mass × Mass :=
  let fm1 := mass_force_append fm (spring_force_on_first sp fm sm)
  let sm1 := mass_force_append sm (spring_force_on_second sp fm sm)
  let fm2 := mass_force_append fm1 (spring_damp_on_first sp fm sm)
  let sm2 := mass_force_append sm1 (spring_damp_on_second sp fm sm)
  (fm2, sm2)

/-- The `System` struct: bounded mass and spring arrays with their counts,
modelled as lists of the live entries. -/
structure System where
  masses : List Mass
  springs : List Spring

/-- `system_add_mass`: rejects at `SYSTEM_CAPACITY`, otherwise appends. -/
def system_add_mass (s : System) (m : Mass) : System :=
  if s.masses.length ≥ SYSTEM_CAPACITY then s
  else { s with masses := s.masses ++ [m] }

/-- `system_add_spring`: rejects when the spring array is at capacity or
either index is not strictly below the current mass count; otherwise binds
the spring's endpoints to the two indices and appends it. -/
def system_add_spring (s : System) (sp : Spring) (m1 m2 : Nat) : System :=
  if s.springs.length ≥ SYSTEM_CAPACITY then s
  else if s.masses.length ≤ m1 then s
  else if s.masses.length ≤ m2 then s
  else { s with springs := s.springs ++ [{ sp with first := m1, second := m2 }] }

/-- One write through a spring's endpoint pointer: append a force to the
mass stored at index `i` (no change when the index is out of range). -/
def mass_list_append_force (ms : List Mass) (i : Nat) (force : Vec2) : List Mass :=
  match ms[i]? with
  | some m => ms.set i (mass_force_append m force)
  | none => ms

/-- One `spring_update` call performed through the owning system's mass
array: the four appends in source order, addressed by the spring's
endpoint indices. -/
def system_spring_apply (ms : List Mass) (sp : Spring) : List Mass :=
  match ms[sp.first]?, ms[sp.second]? with
  | some fm, some sm =>
      let ms1 := mass_list_append_force ms sp.first (spring_force_on_first sp fm sm)
      let ms2 := mass_list_append_force ms1 sp.second (spring_force_on_second sp fm sm)
      let ms3 := mass_list_append_force ms2 sp.first (spring_damp_on_first sp fm sm)
      mass_list_append_force ms3 sp.second (spring_damp_on_second sp fm sm)
  | _, _ => ms

/-- `system_spring_update`: runs `spring_update` on every spring in
insertion order. -/
def system_spring_update (s : System) : System :=
  { s with masses := s.springs.foldl system_spring_apply s.masses }

/-- `system_mass_update`: runs `mass_update` on every mass in order. -/
def system_mass_update (s : System) (dt : ℝ) : System :=
  { s with masses := s.masses.map (fun m => mass_update m dt) }

/-- `system_mass_reset_forces`: clears every mass's force list. -/
def system_mass_reset_forces (s : System) : System :=
  { s with masses := s.masses.map mass_reset_forces }

/-- `system_mass_force_append`: appends the given force to every mass
(the uniform wind force). -/
def system_mass_force_append (s : System) (force : Vec2) : System :=
  { s with masses := s.masses.map (fun m => mass_force_append m force) }

/-- The mass created for lattice cell `(r, c)` by `system_init_grid`:
`Mass m = {0}` (zero kinematics, empty force list) with position
`origin + (c, r) * cell_size`, the uniform mass value, and
`fixed = (r == 0)`. -/
def grid_mass (origin : Vec2) (cell_size mass : ℝ) (r c : Nat) : Mass :=
  { position := Vector2Add origin (Vector2Scale ⟨(c : ℝ), (r : ℝ)⟩ cell_size)
    velocity := ⟨0, 0⟩
    acceleration := ⟨0, 0⟩
    forces := []
    mass := mass
    fixed := decide (r = 0) }

/-- The spring literal passed to `system_add_spring` by `system_init_grid`
(its endpoint fields are overwritten by `system_add_spring`). -/
def grid_spring (cell_size strength dampening : ℝ) : Spring :=
  { first := 0, second := 0, length := cell_size
    strength := strength, dampening := dampening }

/-- `system_init_grid`: zeroes both counts, adds `rows * cols` lattice
masses in row-major order, then for each cell adds the spring to the right
neighbour (skipped in the last column) and to the neighbour below (skipped
in the last row). -/
def system_init_grid (s : System) (rows cols : Nat) (origin : Vec2)
    (cell_size mass spring_strength spring_dampening : ℝ) : System :=
  let s0 : System := { s with masses := [], springs := [] }
  let s1 := (List.range rows).foldl
    (fun acc r => (List.range cols).foldl
      (fun acc2 c => system_add_mass acc2 (grid_mass origin cell_size mass r c)) acc) s0
  (List.range rows).foldl
    (fun acc r => (List.range cols).foldl
      (fun acc2 c =>
        let m0 := r * cols + c
        let m1 := r * cols + c + 1
        let m2 := (r + 1) * cols + c
        let acc3 :=
          if c ≠ cols - 1 ∧ m1 < rows * cols then
            system_add_spring acc2
              (grid_spring cell_size spring_strength spring_dampening) m0 m1
          else acc2
        if r ≠ rows - 1 ∧ m2 < rows * cols then
          system_add_spring acc3
            (grid_spring cell_size spring_strength spring_dampening) m0 m2
        else acc3) acc) s1

/-- Sum of a list of vectors (left fold of `Vector2Add` from the zero vector). -/
def vec_sum (l : List Vec2) : Vec2 := l.foldl Vector2Add ⟨0, 0⟩

/-- Accumulate a list of forces onto a mass by repeated `mass_force_append`. -/
def mass_accumulate (m : Mass) (l : List Vec2) : Mass := l.foldl mass_force_append m

/-- One single-force integration pass: clear the force list, apply one
force, integrate once. -/
def mass_single_force_pass (dt : ℝ) (m : Mass) (force : Vec2) : Mass :=
  mass_update (mass_force_append (mass_reset_forces m) force) dt

/-- Repeated single-force integration passes, one per force in the list. -/
def mass_sequential_passes (m : Mass) (l : List Vec2) (dt : ℝ) : Mass :=
  l.foldl (mass_single_force_pass dt) m

/-- Row-major list of the lattice masses `system_init_grid` creates. -/
def grid_mass_list (rows cols : Nat) (origin : Vec2) (cell_size mass : ℝ) : List Mass :=
  (List.range rows).flatMap fun r =>
    (List.range cols).map fun c => grid_mass origin cell_size mass r c

/-- Positions, velocities and the inert fields of every mass at every index
are preserved between two mass lists. -/
def pos_vel_preserved (ms msB : List Mass) : Prop :=
  msB.length = ms.length ∧
    ∀ (j : Nat) (m : Mass), ms[j]? = some m →
      ∃ mB, msB[j]? = some mB ∧ mB.position = m.position ∧ mB.velocity = m.velocity
        ∧ mB.fixed = m.fixed ∧ mB.mass = m.mass

/-- Every spring's endpoint indices lie strictly inside the system's mass
collection. -/
def springs_wf (s : System) : Prop :=
  ∀ sp ∈ s.springs, sp.first < s.masses.length ∧ sp.second < s.masses.length

/-- A concrete non-fixed mass with one accumulated force. -/
def mEx : Mass :=
  { position := ⟨1, 2⟩, velocity := ⟨3, 4⟩, acceleration := ⟨0, 0⟩
    forces := [⟨2, 0⟩], mass := 2, fixed := false }

/-- A concrete non-fixed unit mass at the origin, at rest, with no forces. -/
def mZero : Mass :=
  { position := ⟨0, 0⟩, velocity := ⟨0, 0⟩, acceleration := ⟨0, 0⟩
    forces := [], mass := 1, fixed := false }

/-- A concrete mass one unit below `mZero`. -/
def smEx : Mass := { mZero with position := ⟨0, 1⟩ }

/-- A concrete spring: rest length 2, strength 3, dampening 5. -/
def spEx : Spring := { first := 0, second := 0, length := 2, strength := 3, dampening := 5 }

/-- A concrete mass whose force list is exactly at capacity. -/
def fmFull : Mass := { mZero with forces := List.replicate FORCES_CAPACITY ⟨0, 0⟩ }

/-- A concrete fixed mass. -/
def mFix : Mass := { mZero with fixed := true }

/-- A system holding just the fixed mass `mFix`. -/
def sFix : System := ⟨[mFix], []⟩

/-- A system holding a single mass. -/
def sOne : System := ⟨[mEx], []⟩

/-- A system whose mass collection is exactly at capacity. -/
def sFull : System := ⟨List.replicate SYSTEM_CAPACITY mEx, []⟩

/-- The empty system. -/
def sEmpty : System := ⟨[], []⟩

/-! ## Component lemmas and vector algebra -/

@[simp] theorem Vector2Add_x (v w : Vec2) : (Vector2Add v w).x = v.x + w.x := rfl
@[simp] theorem Vector2Add_y (v w : Vec2) : (Vector2Add v w).y = v.y + w.y := rfl
@[simp] theorem Vector2Subtract_x (v w : Vec2) : (Vector2Subtract v w).x = v.x - w.x := rfl
@[simp] theorem Vector2Subtract_y (v w : Vec2) : (Vector2Subtract v w).y = v.y - w.y := rfl
@[simp] theorem Vector2Scale_x (v : Vec2) (s : ℝ) : (Vector2Scale v s).x = v.x * s := rfl
@[simp] theorem Vector2Scale_y (v : Vec2) (s : ℝ) : (Vector2Scale v s).y = v.y * s := rfl
@[simp] theorem Vector2Negate_x (v : Vec2) : (Vector2Negate v).x = -v.x := rfl
@[simp] theorem Vector2Negate_y (v : Vec2) : (Vector2Negate v).y = -v.y := rfl

theorem Vector2Add_assoc (a b c : Vec2) :
    Vector2Add (Vector2Add a b) c = Vector2Add a (Vector2Add b c) := by
  ext <;> simp <;> ring

theorem Vector2Add_zero_right (a : Vec2) : Vector2Add a ⟨0, 0⟩ = a := by
  ext <;> simp

theorem foldl_vector2Add_shift (l : List Vec2) :
    ∀ a b : Vec2, l.foldl Vector2Add (Vector2Add a b) = Vector2Add a (l.foldl Vector2Add b) := by
  induction l with
  | nil => intro a b; rfl
  | cons c t ih =>
      intro a b
      simp only [List.foldl_cons, Vector2Add_assoc]
      exact ih a (Vector2Add b c)

theorem foldl_eq_add_vec_sum (l : List Vec2) (a : Vec2) :
    l.foldl Vector2Add a = Vector2Add a (vec_sum l) := by
  have h : l.foldl Vector2Add (Vector2Add a ⟨0, 0⟩) = Vector2Add a (l.foldl Vector2Add ⟨0, 0⟩) :=
    foldl_vector2Add_shift l a ⟨0, 0⟩
  rw [Vector2Add_zero_right] at h
  exact h

theorem mass_force_append_ok (m : Mass) (f : Vec2) (h : m.forces.length < FORCES_CAPACITY) :
    mass_force_append m f = { m with forces := m.forces ++ [f] } := by
  simp [mass_force_append, not_le.mpr h]

theorem mass_force_append2 (m : Mass) (f g : Vec2) (h : m.forces.length + 2 ≤ FORCES_CAPACITY) :
    mass_force_append (mass_force_append m f) g = { m with forces := m.forces ++ [f, g] } := by
  have h1 : m.forces.length < FORCES_CAPACITY := by omega
  rw [mass_force_append_ok m f h1]
  have h2 : ({ m with forces := m.forces ++ [f] } : Mass).forces.length < FORCES_CAPACITY := by
    simp only [List.length_append, List.length_cons, List.length_nil]
    omega
  rw [mass_force_append_ok _ g h2]
  simp

/-! ## Claim theorems -/

/-- C1: for a non-fixed mass, `integrate(dt)` sets acceleration to gravity
plus the sum of `force / mass` over the accumulated forces, then updates
the velocity by `acceleration * dt`, and then updates the position by
`velocity * dt` using the already-updated velocity (semi-implicit Euler). -/
theorem mass_update_semi_implicit_euler (m : Mass) (dt : ℝ) (h : m.fixed = false) :
    (mass_update m dt).acceleration
        = Vector2Add GRAVITATIONAL_ACCELERATION
            (vec_sum (m.forces.map (fun force => Vector2Scale force (1 / m.mass))))
      ∧ (mass_update m dt).velocity
          = Vector2Add m.velocity (Vector2Scale ((mass_update m dt).acceleration) dt)
      ∧ (mass_update m dt).position
          = Vector2Add m.position (Vector2Scale ((mass_update m dt).velocity) dt) := by
  have hfold :
      m.forces.foldl
          (fun acc force => Vector2Add acc (Vector2Scale force (1 / m.mass)))
          GRAVITATIONAL_ACCELERATION
        = Vector2Add GRAVITATIONAL_ACCELERATION
            (vec_sum (m.forces.map (fun force => Vector2Scale force (1 / m.mass)))) := by
    rw [← List.foldl_map]
    exact foldl_eq_add_vec_sum _ _
  simp only [mass_update, h, Bool.false_eq_true, if_false]
  exact ⟨hfold, trivial, trivial⟩

/-- Witness for C1 at the concrete mass `mEx` and timestep 5. -/
theorem mass_update_semi_implicit_euler_witness :
    mEx.fixed = false
      ∧ ((mass_update mEx 5).acceleration
            = Vector2Add GRAVITATIONAL_ACCELERATION
                (vec_sum (mEx.forces.map (fun force => Vector2Scale force (1 / mEx.mass))))
          ∧ (mass_update mEx 5).velocity
              = Vector2Add mEx.velocity (Vector2Scale ((mass_update mEx 5).acceleration) 5)
          ∧ (mass_update mEx 5).position
              = Vector2Add mEx.position (Vector2Scale ((mass_update mEx 5).velocity) 5)) :=
  ⟨rfl, mass_update_semi_implicit_euler mEx 5 rfl⟩

/-- C5: `addSpring` succeeds exactly when both indices are strictly below
the current mass count and the spring collection is below capacity; on
success it binds the endpoints to the two indices and appends the spring,
leaving the masses untouched; on any failure the system is left exactly as
it was. -/
theorem add_spring_validation :
    (∀ (s : System) (sp : Spring) (m1 m2 : Nat),
        s.springs.length < SYSTEM_CAPACITY → m1 < s.masses.length → m2 < s.masses.length →
          (system_add_spring s sp m1 m2).springs
              = s.springs ++ [{ sp with first := m1, second := m2 }]
            ∧ (system_add_spring s sp m1 m2).masses = s.masses)
      ∧ (∀ (s : System) (sp : Spring) (m1 m2 : Nat),
          s.springs.length ≥ SYSTEM_CAPACITY ∨ s.masses.length ≤ m1 ∨ s.masses.length ≤ m2 →
            system_add_spring s sp m1 m2 = s) := by
  constructor
  · intro s sp m1 m2 hcap h1 h2
    have hc : ¬ s.springs.length ≥ SYSTEM_CAPACITY := not_le.mpr hcap
    have h1B : ¬ s.masses.length ≤ m1 := not_le.mpr h1
    have h2B : ¬ s.masses.length ≤ m2 := not_le.mpr h2
    simp [system_add_spring, hc, h1B, h2B]
  · intro s sp m1 m2 h
    rcases h with h | h | h <;> simp [system_add_spring, h]

/-- Witness for C5: a successful insertion into the one-mass system `sOne`
and a rejected insertion with an out-of-range second index. -/
theorem add_spring_validation_witness :
    ((system_add_spring sOne spEx 0 0).springs
        = sOne.springs ++ [{ spEx with first := 0, second := 0 }]
      ∧ (system_add_spring sOne spEx 0 0).masses = sOne.masses)
      ∧ system_add_spring sOne spEx 0 5 = sOne :=
  ⟨add_spring_validation.1 sOne spEx 0 0 (by norm_num [sOne, SYSTEM_CAPACITY])
      (by norm_num [sOne]) (by norm_num [sOne]),
    add_spring_validation.2 sOne spEx 0 5 (Or.inr (Or.inr (by norm_num [sOne])))⟩

/-- C6: `addMass` at capacity leaves the system unchanged;
`applyForce` at capacity leaves the mass unchanged; otherwise `applyForce`
appends the force and increases the force count by exactly one, touching
nothing else. -/
theorem capacity_rejection_non_mutating :
    (∀ (s : System) (m : Mass), s.masses.length ≥ SYSTEM_CAPACITY → system_add_mass s m = s)
      ∧ (∀ (m : Mass) (force : Vec2), m.forces.length ≥ FORCES_CAPACITY →
          mass_force_append m force = m)
      ∧ (∀ (m : Mass) (force : Vec2), m.forces.length < FORCES_CAPACITY →
          (mass_force_append m force).forces = m.forces ++ [force]
            ∧ (mass_force_append m force).forces.length = m.forces.length + 1
            ∧ (mass_force_append m force).position = m.position
            ∧ (mass_force_append m force).velocity = m.velocity
            ∧ (mass_force_append m force).acceleration = m.acceleration
            ∧ (mass_force_append m force).mass = m.mass
            ∧ (mass_force_append m force).fixed = m.fixed) := by
  refine ⟨?_, ?_, ?_⟩
  · intro s m h; simp [system_add_mass, h]
  · intro m f h; simp [mass_force_append, h]
  · intro m f h
    have hB : ¬ m.forces.length ≥ FORCES_CAPACITY := not_le.mpr h
    simp [mass_force_append, hB]

/-- Witness for C6: the at-capacity system `sFull` and mass `fmFull`
reject without mutation, and an append to the one-force mass `mEx`
succeeds. -/
theorem capacity_rejection_non_mutating_witness :
    system_add_mass sFull mZero = sFull
      ∧ mass_force_append fmFull ⟨1, 1⟩ = fmFull
      ∧ ((mass_force_append mEx ⟨1, 1⟩).forces = mEx.forces ++ [⟨1, 1⟩]
          ∧ (mass_force_append mEx ⟨1, 1⟩).forces.length = mEx.forces.length + 1
          ∧ (mass_force_append mEx ⟨1, 1⟩).position = mEx.position
          ∧ (mass_force_append mEx ⟨1, 1⟩).velocity = mEx.velocity
          ∧ (mass_force_append mEx ⟨1, 1⟩).acceleration = mEx.acceleration
          ∧ (mass_force_append mEx ⟨1, 1⟩).mass = mEx.mass
          ∧ (mass_force_append mEx ⟨1, 1⟩).fixed = mEx.fixed) :=
  ⟨capacity_rejection_non_mutating.1 sFull mZero (by simp [sFull]),
    capacity_rejection_non_mutating.2.1 fmFull ⟨1, 1⟩ (by simp [fmFull]),
    capacity_rejection_non_mutating.2.2 mEx ⟨1, 1⟩ (by norm_num [mEx, FORCES_CAPACITY])⟩

/-- C2: in one `spring_update` call with room for both appends on each
endpoint, the first endpoint receives its spring and dampener
contributions, the second endpoint receives exactly the negations of
those contributions, and each corresponding pair sums to the zero
vector. -/
theorem spring_newton_third_law (sp : Spring) (fm sm : Mass)
    (hf : fm.forces.length + 2 ≤ FORCES_CAPACITY)
    (hs : sm.forces.length + 2 ≤ FORCES_CAPACITY) :
    (spring_update sp fm sm).1.forces
        = fm.forces ++ [spring_force_on_first sp fm sm, spring_damp_on_first sp fm sm]
      ∧ (spring_update sp fm sm).2.forces
          = sm.forces ++ [spring_force_on_second sp fm sm, spring_damp_on_second sp fm sm]
      ∧ spring_force_on_second sp fm sm = Vector2Negate (spring_force_on_first sp fm sm)
      ∧ spring_damp_on_second sp fm sm = Vector2Negate (spring_damp_on_first sp fm sm)
      ∧ Vector2Add (spring_force_on_first sp fm sm) (spring_force_on_second sp fm sm) = ⟨0, 0⟩
      ∧ Vector2Add (spring_damp_on_first sp fm sm) (spring_damp_on_second sp fm sm)
          = ⟨0, 0⟩ := by
  refine ⟨?_, ?_, ?_, ?_, ?_, ?_⟩
  · simp only [spring_update]
    rw [mass_force_append2 fm _ _ hf]
  · simp only [spring_update]
    rw [mass_force_append2 sm _ _ hs]
  · ext <;> simp [spring_force_on_first, spring_force_on_second] <;> ring
  · ext <;> simp [spring_damp_on_first, spring_damp_on_second] <;> ring
  · ext <;> simp [spring_force_on_first, spring_force_on_second] <;> ring
  · ext <;> simp [spring_damp_on_first, spring_damp_on_second] <;> ring

/-- Witness for C2 at the concrete spring `spEx` between `mZero` and
`smEx`. -/
theorem spring_newton_third_law_witness :
    (spring_update spEx mZero smEx).1.forces
        = mZero.forces ++ [spring_force_on_first spEx mZero smEx,
            spring_damp_on_first spEx mZero smEx]
      ∧ (spring_update spEx mZero smEx).2.forces
          = smEx.forces ++ [spring_force_on_second spEx mZero smEx,
              spring_damp_on_second spEx mZero smEx]
      ∧ spring_force_on_second spEx mZero smEx
          = Vector2Negate (spring_force_on_first spEx mZero smEx)
      ∧ spring_damp_on_second spEx mZero smEx
          = Vector2Negate (spring_damp_on_first spEx mZero smEx)
      ∧ Vector2Add (spring_force_on_first spEx mZero smEx)
            (spring_force_on_second spEx mZero smEx) = ⟨0, 0⟩
      ∧ Vector2Add (spring_damp_on_first spEx mZero smEx)
            (spring_damp_on_second spEx mZero smEx) = ⟨0, 0⟩ :=
  spring_newton_third_law spEx mZero smEx
    (by norm_num [mZero, FORCES_CAPACITY]) (by norm_num [smEx, mZero, FORCES_CAPACITY])

/-- C10: `spring_update` performs its four appends independently, with no
pairing check: when the first endpoint's force list is at capacity while
the second endpoint has two free slots, the first endpoint is left
entirely unchanged while the second still receives both of its
contributions, so the pair can receive a nonzero net force. -/
theorem spring_capacity_overflow_asymmetry (sp : Spring) (fm sm : Mass)
    (hf : fm.forces.length ≥ FORCES_CAPACITY)
    (hs : sm.forces.length + 2 ≤ FORCES_CAPACITY) :
    (spring_update sp fm sm).1 = fm
      ∧ (spring_update sp fm sm).2.forces
          = sm.forces ++ [spring_force_on_second sp fm sm,
              spring_damp_on_second sp fm sm] := by
  have e1 : mass_force_append fm (spring_force_on_first sp fm sm) = fm := by
    simp [mass_force_append, hf]
  have e2 : mass_force_append fm (spring_damp_on_first sp fm sm) = fm := by
    simp [mass_force_append, hf]
  constructor
  · simp only [spring_update]
    rw [e1, e2]
  · simp only [spring_update]
    rw [mass_force_append2 sm _ _ hs]

/-- Witness for C10: with `fmFull` at capacity and `smEx` two slots free,
the spring `spEx` leaves `fmFull` untouched, appends both contributions to
`smEx`, and the net force delivered to the pair is `(0, 3) ≠ (0, 0)`. -/
theorem spring_capacity_overflow_asymmetry_witness :
    ((spring_update spEx fmFull smEx).1 = fmFull
        ∧ (spring_update spEx fmFull smEx).2.forces
            = smEx.forces ++ [spring_force_on_second spEx fmFull smEx,
                spring_damp_on_second spEx fmFull smEx])
      ∧ Vector2Add (spring_force_on_second spEx fmFull smEx)
            (spring_damp_on_second spEx fmFull smEx) ≠ ⟨0, 0⟩ := by
  refine ⟨spring_capacity_overflow_asymmetry spEx fmFull smEx
      (by simp [fmFull, mZero]) (by norm_num [smEx, mZero, FORCES_CAPACITY]), ?_⟩
  have hspan : Vector2Subtract smEx.position fmFull.position = ⟨0, 1⟩ := by
    ext <;> norm_num [smEx, fmFull, mZero, Vector2Subtract]
  have hnorm : Vector2Normalize (⟨0, 1⟩ : Vec2) = ⟨0, 1⟩ := by
    norm_num [Vector2Normalize, Real.sqrt_one]
  have hlen : Vector2Length (⟨0, 1⟩ : Vec2) = 1 := by
    norm_num [Vector2Length, Real.sqrt_one]
  have h2 : spring_force_on_second spEx fmFull smEx = ⟨0, 3⟩ := by
    simp only [spring_force_on_second, hspan, hnorm, hlen]
    ext <;> norm_num [spEx]
  have h4 : spring_damp_on_second spEx fmFull smEx = ⟨0, 0⟩ := by
    simp only [spring_damp_on_second, spring_displacement_rate, hspan, hnorm]
    ext <;> norm_num [spEx, smEx, fmFull, mZero, Vector2DotProduct]
  rw [h2, h4]
  intro h
  have hy := congrArg Vec2.y h
  norm_num [Vector2Add] at hy

theorem mass_force_append_position (m : Mass) (f : Vec2) :
    (mass_force_append m f).position = m.position := by
  by_cases hc : m.forces.length ≥ FORCES_CAPACITY <;> simp [mass_force_append, hc]

theorem mass_force_append_velocity (m : Mass) (f : Vec2) :
    (mass_force_append m f).velocity = m.velocity := by
  by_cases hc : m.forces.length ≥ FORCES_CAPACITY <;> simp [mass_force_append, hc]

theorem mass_force_append_fixed (m : Mass) (f : Vec2) :
    (mass_force_append m f).fixed = m.fixed := by
  by_cases hc : m.forces.length ≥ FORCES_CAPACITY <;> simp [mass_force_append, hc]

theorem mass_force_append_mass (m : Mass) (f : Vec2) :
    (mass_force_append m f).mass = m.mass := by
  by_cases hc : m.forces.length ≥ FORCES_CAPACITY <;> simp [mass_force_append, hc]

theorem pvp_refl (ms : List Mass) : pos_vel_preserved ms ms :=
  ⟨rfl, fun _ m h => ⟨m, h, rfl, rfl, rfl, rfl⟩⟩

theorem pvp_trans {a b c : List Mass}
    (hab : pos_vel_preserved a b) (hbc : pos_vel_preserved b c) : pos_vel_preserved a c := by
  refine ⟨hbc.1.trans hab.1, fun j m h => ?_⟩
  obtain ⟨mB, hB, p1, v1, f1, s1⟩ := hab.2 j m h
  obtain ⟨mC, hC, p2, v2, f2, s2⟩ := hbc.2 j mB hB
  exact ⟨mC, hC, p2.trans p1, v2.trans v1, f2.trans f1, s2.trans s1⟩

theorem pvp_append_force (ms : List Mass) (i : Nat) (f : Vec2) :
    pos_vel_preserved ms (mass_list_append_force ms i f) := by
  unfold mass_list_append_force
  cases hi : ms[i]? with
  | none => exact pvp_refl ms
  | some mi =>
      refine ⟨List.length_set ms i _, fun j m hj => ?_⟩
      by_cases hij : i = j
      · subst hij
        have hlt : i < ms.length := (List.getElem?_eq_some_iff.mp hi).1
        refine ⟨mass_force_append mi f, List.getElem?_set_self hlt, ?_, ?_, ?_, ?_⟩
        · rw [mass_force_append_position]
          have : mi = m := by rw [hi] at hj; exact Option.some.inj hj
          rw [this]
        · rw [mass_force_append_velocity]
          have : mi = m := by rw [hi] at hj; exact Option.some.inj hj
          rw [this]
        · rw [mass_force_append_fixed]
          have : mi = m := by rw [hi] at hj; exact Option.some.inj hj
          rw [this]
        · rw [mass_force_append_mass]
          have : mi = m := by rw [hi] at hj; exact Option.some.inj hj
          rw [this]
      · exact ⟨m, by rw [List.getElem?_set_ne hij]; exact hj, rfl, rfl, rfl, rfl⟩

theorem pvp_spring_apply (ms : List Mass) (sp : Spring) :
    pos_vel_preserved ms (system_spring_apply ms sp) := by
  unfold system_spring_apply
  cases h1 : ms[sp.first]? with
  | none => exact pvp_refl ms
  | some fm =>
      cases h2 : ms[sp.second]? with
      | none => exact pvp_refl ms
      | some sm =>
          exact pvp_trans (pvp_append_force _ _ _) (pvp_trans (pvp_append_force _ _ _)
            (pvp_trans (pvp_append_force _ _ _) (pvp_append_force _ _ _)))

theorem pvp_spring_foldl (l : List Spring) :
    ∀ ms : List Mass, pos_vel_preserved ms (l.foldl system_spring_apply ms) := by
  induction l with
  | nil => intro ms; exact pvp_refl ms
  | cons sp t ih =>
      intro ms
      exact pvp_trans (pvp_spring_apply ms sp) (ih (system_spring_apply ms sp))

/-- C7: a fixed mass is returned unchanged by `integrate` for every `dt`
and force list; `stepSprings`, `resetForces` and `applyUniformForce`
preserve every mass's position and velocity; and `stepMasses` leaves a
fixed mass entirely unchanged at its index.  Hence a fixed mass never
moves under any system operation. -/
theorem fixed_masses_never_move :
    (∀ (m : Mass) (dt : ℝ), m.fixed = true → mass_update m dt = m)
      ∧ (∀ s : System, pos_vel_preserved s.masses (system_spring_update s).masses)
      ∧ (∀ (s : System) (dt : ℝ) (i : Nat) (m : Mass),
          s.masses[i]? = some m → m.fixed = true →
            (system_mass_update s dt).masses[i]? = some m)
      ∧ (∀ s : System, pos_vel_preserved s.masses (system_mass_reset_forces s).masses)
      ∧ (∀ (s : System) (force : Vec2),
          pos_vel_preserved s.masses (system_mass_force_append s force).masses) := by
  refine ⟨?_, ?_, ?_, ?_, ?_⟩
  · intro m dt h; simp [mass_update, h]
  · intro s; exact pvp_spring_foldl s.springs s.masses
  · intro s dt i m hi hfix
    have : mass_update m dt = m := by simp [mass_update, hfix]
    simp [system_mass_update, List.getElem?_map, hi, this]
  · intro s
    refine ⟨List.length_map _ _, fun j m hj => ?_⟩
    exact ⟨mass_reset_forces m, by simp [system_mass_reset_forces, List.getElem?_map, hj],
      rfl, rfl, rfl, rfl⟩
  · intro s force
    refine ⟨List.length_map _ _, fun j m hj => ?_⟩
    exact ⟨mass_force_append m force,
      by simp [system_mass_force_append, List.getElem?_map, hj],
      mass_force_append_position m force, mass_force_append_velocity m force,
      mass_force_append_fixed m force, mass_force_append_mass m force⟩

/-- Witness for C7: the concrete fixed mass `mFix` survives `integrate`
and a system-level `stepMasses` unchanged. -/
theorem fixed_masses_never_move_witness :
    mass_update mFix 7 = mFix
      ∧ (system_mass_update sFix 7).masses[0]? = some mFix :=
  ⟨fixed_masses_never_move.1 mFix 7 rfl,
    fixed_masses_never_move.2.2.1 sFix 7 0 mFix rfl rfl⟩

/-- Counterexample to C8: `system_add_spring` checks only that both
indices are below the mass count, never that they differ, so adding a
spring with both endpoints at index 0 of the one-mass system `sOne`
succeeds and produces a spring whose two endpoints are the same mass. -/
theorem add_spring_self_loop_counterexample :
    (system_add_spring sOne spEx 0 0).springs.length = sOne.springs.length + 1
      ∧ (system_add_spring sOne spEx 0 0).springs.map (fun sp => (sp.first, sp.second))
          = [(0, 0)] := by
  norm_num [system_add_spring, sOne, spEx, SYSTEM_CAPACITY]

theorem springs_wf_add_mass (s : System) (m : Mass) (h : springs_wf s) :
    springs_wf (system_add_mass s m) := by
  unfold system_add_mass
  by_cases hc : s.masses.length ≥ SYSTEM_CAPACITY
  · simpa [hc] using h
  · intro sp hsp
    simp only [hc, if_false] at hsp ⊢
    obtain ⟨h1, h2⟩ := h sp hsp
    constructor <;> simp <;> omega

theorem springs_wf_add_spring (s : System) (sp : Spring) (m1 m2 : Nat)
    (h : springs_wf s) : springs_wf (system_add_spring s sp m1 m2) := by
  unfold system_add_spring
  by_cases hc : s.springs.length ≥ SYSTEM_CAPACITY
  · simpa [hc] using h
  by_cases h1 : s.masses.length ≤ m1
  · simpa [hc, h1] using h
  by_cases h2 : s.masses.length ≤ m2
  · simpa [hc, h1, h2] using h
  intro q hq
  simp only [hc, h1, h2, if_false] at hq ⊢
  rcases List.mem_append.mp hq with hq | hq
  · exact h q hq
  · have : q = { sp with first := m1, second := m2 } := List.mem_singleton.mp hq
    subst this
    exact ⟨not_le.mp h1, not_le.mp h2⟩

theorem springs_wf_spring_update (s : System) (h : springs_wf s) :
    springs_wf (system_spring_update s) := by
  intro sp hsp
  have hlen : (system_spring_update s).masses.length = s.masses.length :=
    (pvp_spring_foldl s.springs s.masses).1
  rw [hlen]
  exact h sp hsp

theorem springs_wf_mass_update (s : System) (dt : ℝ) (h : springs_wf s) :
    springs_wf (system_mass_update s dt) := by
  intro sp hsp
  simpa [system_mass_update] using h sp hsp

theorem springs_wf_reset_forces (s : System) (h : springs_wf s) :
    springs_wf (system_mass_reset_forces s) := by
  intro sp hsp
  simpa [system_mass_reset_forces] using h sp hsp

theorem springs_wf_uniform_force (s : System) (f : Vec2) (h : springs_wf s) :
    springs_wf (system_mass_force_append s f) := by
  intro sp hsp
  simpa [system_mass_force_append] using h sp hsp

theorem springs_wf_ite (P : Prop) [Decidable P] (sy : System) (sp : Spring) (a b : Nat)
    (h : springs_wf sy) : springs_wf (if P then system_add_spring sy sp a b else sy) := by
  by_cases hP : P
  · rw [if_pos hP]; exact springs_wf_add_spring _ _ _ _ h
  · rw [if_neg hP]; exact h

theorem foldl_preserves_prop {α : Type} (P : System → Prop) (f : System → α → System)
    (hf : ∀ (sy : System) (a : α), P sy → P (f sy a)) :
    ∀ (l : List α) (sy : System), P sy → P (l.foldl f sy) := by
  intro l
  induction l with
  | nil => intro sy h; exact h
  | cons a t ih => intro sy h; exact ih (f sy a) (hf sy a h)

theorem springs_wf_init_grid (s : System) (rows cols : Nat) (origin : Vec2)
    (cell_size mass spring_strength spring_dampening : ℝ) :
    springs_wf
      (system_init_grid s rows cols origin cell_size mass spring_strength spring_dampening) := by
  unfold system_init_grid
  apply foldl_preserves_prop springs_wf
  · intro sy r hsy
    apply foldl_preserves_prop springs_wf
    · intro sy2 c hsy2
      exact springs_wf_ite _ _ _ _ _ (springs_wf_ite _ _ _ _ _ hsy2)
    · exact hsy
  · apply foldl_preserves_prop springs_wf
    · intro sy r hsy
      apply foldl_preserves_prop springs_wf
      · intro sy2 c hsy2
        exact springs_wf_add_mass _ _ hsy2
      · exact hsy
    · intro sp hsp
      exact absurd hsp (List.not_mem_nil sp)

/-- C8 (amended): every system operation maintains the invariant that each
spring's two endpoint indices point into this system's own mass collection
(both strictly below the mass count); `system_add_spring` validates both
indices but not their distinctness, so a spring may connect a mass to
itself. -/
theorem spring_endpoints_in_range :
    (∀ (s : System) (m : Mass), springs_wf s → springs_wf (system_add_mass s m))
      ∧ (∀ (s : System) (sp : Spring) (m1 m2 : Nat),
          springs_wf s → springs_wf (system_add_spring s sp m1 m2))
      ∧ (∀ s : System, springs_wf s → springs_wf (system_spring_update s))
      ∧ (∀ (s : System) (dt : ℝ), springs_wf s → springs_wf (system_mass_update s dt))
      ∧ (∀ s : System, springs_wf s → springs_wf (system_mass_reset_forces s))
      ∧ (∀ (s : System) (f : Vec2), springs_wf s → springs_wf (system_mass_force_append s f))
      ∧ (∀ (s : System) (rows cols : Nat) (origin : Vec2) (cs mv st dp : ℝ),
          springs_wf (system_init_grid s rows cols origin cs mv st dp)) :=
  ⟨springs_wf_add_mass, springs_wf_add_spring,
    springs_wf_spring_update, springs_wf_mass_update, springs_wf_reset_forces,
    springs_wf_uniform_force, springs_wf_init_grid⟩

/-- Witness for C8 (amended): the invariant holds after adding a mass to
the empty system and after the self-loop insertion of the counterexample
scenario. -/
theorem spring_endpoints_in_range_witness :
    springs_wf (system_add_mass sEmpty mZero)
      ∧ springs_wf (system_add_spring sOne spEx 0 0) :=
  ⟨spring_endpoints_in_range.1 sEmpty mZero (fun sp hsp => absurd hsp (List.not_mem_nil sp)),
    spring_endpoints_in_range.2.1 sOne spEx 0 0 (fun sp hsp => absurd hsp (List.not_mem_nil sp))⟩

theorem mass_update_fixed (m : Mass) (dt : ℝ) : (mass_update m dt).fixed = m.fixed := by
  by_cases h : m.fixed <;> simp [mass_update, h]

theorem mass_update_mass (m : Mass) (dt : ℝ) : (mass_update m dt).mass = m.mass := by
  by_cases h : m.fixed <;> simp [mass_update, h]

theorem mass_update_velocity_eq (m : Mass) (dt : ℝ) (h : m.fixed = false) :
    (mass_update m dt).velocity
      = Vector2Add m.velocity (Vector2Scale (Vector2Add GRAVITATIONAL_ACCELERATION
          (vec_sum (m.forces.map (fun force => Vector2Scale force (1 / m.mass))))) dt) := by
  have hfold :
      m.forces.foldl
          (fun acc force => Vector2Add acc (Vector2Scale force (1 / m.mass)))
          GRAVITATIONAL_ACCELERATION
        = Vector2Add GRAVITATIONAL_ACCELERATION
            (vec_sum (m.forces.map (fun force => Vector2Scale force (1 / m.mass)))) := by
    rw [← List.foldl_map]
    exact foldl_eq_add_vec_sum _ _
  simp only [mass_update, h, Bool.false_eq_true, if_false]
  rw [hfold]

theorem mass_accumulate_forces (l : List Vec2) :
    ∀ m : Mass, m.forces.length + l.length ≤ FORCES_CAPACITY →
      mass_accumulate m l = { m with forces := m.forces ++ l } := by
  induction l with
  | nil => intro m h; simp [mass_accumulate]
  | cons f t ih =>
      intro m h
      simp only [mass_accumulate, List.foldl_cons]
      rw [mass_force_append_ok m f (by simp only [List.length_cons] at h; omega)]
      have hrec := ih { m with forces := m.forces ++ [f] }
        (by simp only [List.length_append, List.length_cons, List.length_nil] at h ⊢; omega)
      simp only [mass_accumulate] at hrec
      rw [hrec]
      simp

theorem mass_single_force_pass_fixed (dt : ℝ) (m : Mass) (f : Vec2) :
    (mass_single_force_pass dt m f).fixed = m.fixed := by
  unfold mass_single_force_pass
  rw [mass_update_fixed, mass_force_append_fixed]
  rfl

theorem mass_single_force_pass_mass (dt : ℝ) (m : Mass) (f : Vec2) :
    (mass_single_force_pass dt m f).mass = m.mass := by
  unfold mass_single_force_pass
  rw [mass_update_mass, mass_force_append_mass]
  rfl

theorem single_pass_velocity (m : Mass) (f : Vec2) (dt : ℝ) (h : m.fixed = false) :
    (mass_single_force_pass dt m f).velocity
      = Vector2Add m.velocity (Vector2Scale (Vector2Add GRAVITATIONAL_ACCELERATION
          (Vector2Add ⟨0, 0⟩ (Vector2Scale f (1 / m.mass)))) dt) := by
  unfold mass_single_force_pass
  rw [mass_force_append_ok _ f (by simp [mass_reset_forces, FORCES_CAPACITY])]
  have hfix : ({ mass_reset_forces m with
      forces := (mass_reset_forces m).forces ++ [f] } : Mass).fixed = false := h
  rw [mass_update_velocity_eq _ dt hfix]
  simp [mass_reset_forces, vec_sum]

theorem sequential_passes_velocity (dt : ℝ) (l : List Vec2) :
    ∀ m : Mass, m.fixed = false →
      (mass_sequential_passes m l dt).velocity
        = Vector2Add m.velocity
            (Vector2Add (Vector2Scale GRAVITATIONAL_ACCELERATION ((l.length : ℝ) * dt))
              (Vector2Scale (vec_sum (l.map (fun force => Vector2Scale force (1 / m.mass))))
                dt)) := by
  induction l with
  | nil =>
      intro m h
      simp only [mass_sequential_passes, List.foldl_nil, List.length_nil, List.map_nil]
      ext <;> simp [vec_sum] <;> ring
  | cons f t ih =>
      intro m h
      have hstep : mass_sequential_passes m (f :: t) dt
          = mass_sequential_passes (mass_single_force_pass dt m f) t dt := by
        simp [mass_sequential_passes]
      rw [hstep]
      have hfix : (mass_single_force_pass dt m f).fixed = false := by
        rw [mass_single_force_pass_fixed]; exact h
      rw [ih _ hfix, mass_single_force_pass_mass, single_pass_velocity m f dt h]
      have hsum : vec_sum ((f :: t).map (fun force => Vector2Scale force (1 / m.mass)))
          = Vector2Add (Vector2Add ⟨0, 0⟩ (Vector2Scale f (1 / m.mass)))
              (vec_sum (t.map (fun force => Vector2Scale force (1 / m.mass)))) := by
        simp only [List.map_cons, vec_sum, List.foldl_cons]
        exact foldl_eq_add_vec_sum _ _
      rw [hsum]
      ext <;> simp [List.length_cons] <;> push_cast <;> ring

/-- Counterexample to C4: with gravity re-applied on every integration
pass, two single-force passes of the zero force on the resting unit mass
`mZero` with `dt = 1` give velocity `(0, 196)`, while accumulating both
forces and integrating once gives `(0, 98)`. -/
theorem superposition_gravity_counterexample :
    ¬ ((mass_sequential_passes mZero [⟨0, 0⟩, ⟨0, 0⟩] 1).velocity
        = (mass_update (mass_accumulate mZero [⟨0, 0⟩, ⟨0, 0⟩]) 1).velocity) := by
  norm_num [mass_sequential_passes, mass_single_force_pass, mass_accumulate,
    mass_update, mass_force_append, mass_reset_forces, mZero, FORCES_CAPACITY,
    GRAVITATIONAL_ACCELERATION, Vector2Add, Vector2Scale, Vec2.mk.injEq]

/-- C4 (amended): for a non-fixed mass at rest with an empty force list
and N ≤ capacity forces, N single-force integration passes yield the same
final velocity as accumulating all N forces and integrating once, except
for the gravity term: the sequential result exceeds the single-pass
result by exactly `(N - 1) * dt` extra gravitational velocity (so the two
agree precisely in their force-superposition part, and coincide whenever
the repeated-gravity term vanishes). -/
theorem superposition_amended (m : Mass) (l : List Vec2) (dt : ℝ)
    (hfix : m.fixed = false) (hvel : m.velocity = ⟨0, 0⟩) (hforces : m.forces = [])
    (hcap : l.length ≤ FORCES_CAPACITY) :
    (mass_sequential_passes m l dt).velocity
      = Vector2Add ((mass_update (mass_accumulate m l) dt).velocity)
          (Vector2Scale GRAVITATIONAL_ACCELERATION (((l.length : ℝ) - 1) * dt)) := by
  have hacc : mass_accumulate m l = { m with forces := l } := by
    have hlem := mass_accumulate_forces l m (by rw [hforces]; simpa)
    rw [hlem, hforces]
    simp
  rw [hacc]
  have hfix2 : ({ m with forces := l } : Mass).fixed = false := hfix
  rw [mass_update_velocity_eq _ dt hfix2]
  rw [sequential_passes_velocity dt l m hfix, hvel]
  ext <;> simp <;> ring

/-- Witness for C4 (amended) at the resting mass `mZero` with two
concrete forces and `dt = 1`. -/
theorem superposition_amended_witness :
    (mass_sequential_passes mZero [⟨2, 0⟩, ⟨0, 4⟩] 1).velocity
      = Vector2Add ((mass_update (mass_accumulate mZero [⟨2, 0⟩, ⟨0, 4⟩]) 1).velocity)
          (Vector2Scale GRAVITATIONAL_ACCELERATION
            ((((([⟨2, 0⟩, ⟨0, 4⟩] : List Vec2).length : ℝ)) - 1) * 1)) :=
  superposition_amended mZero [⟨2, 0⟩, ⟨0, 4⟩] 1 rfl rfl rfl
    (by norm_num [FORCES_CAPACITY])

theorem foldl_foldl_eq_flatMap {α β σ : Type} (g : α → List β) (h : σ → β → σ) :
    ∀ (L : List α) (s : σ),
      L.foldl (fun acc a => (g a).foldl h acc) s = (L.flatMap g).foldl h s := by
  intro L
  induction L with
  | nil => intro s; rfl
  | cons a t ih =>
      intro s
      simp only [List.foldl_cons, List.flatMap_cons, List.foldl_append]
      exact ih _

theorem foldl_add_mass (L : List Mass) :
    ∀ s : System, s.masses.length + L.length ≤ SYSTEM_CAPACITY →
      (L.foldl system_add_mass s).masses = s.masses ++ L
        ∧ (L.foldl system_add_mass s).springs = s.springs := by
  induction L with
  | nil => intro s h; simp
  | cons m t ih =>
      intro s h
      simp only [List.foldl_cons]
      have hc : ¬ s.masses.length ≥ SYSTEM_CAPACITY := by
        simp only [List.length_cons] at h; omega
      have hadd : system_add_mass s m = { s with masses := s.masses ++ [m] } := by
        simp [system_add_mass, hc]
      rw [hadd]
      obtain ⟨h1, h2⟩ := ih { s with masses := s.masses ++ [m] }
        (by simp only [List.length_append, List.length_cons, List.length_nil] at h ⊢; omega)
      exact ⟨by rw [h1]; simp, h2⟩

theorem phase1_fold_eq (rows cols : Nat) (origin : Vec2) (cs mv : ℝ) (s0 : System) :
    (List.range rows).foldl
        (fun acc r => (List.range cols).foldl
          (fun acc2 c => system_add_mass acc2 (grid_mass origin cs mv r c)) acc) s0
      = (grid_mass_list rows cols origin cs mv).foldl system_add_mass s0 := by
  have hstep : (fun (acc : System) (r : Nat) =>
        (List.range cols).foldl
          (fun acc2 c => system_add_mass acc2 (grid_mass origin cs mv r c)) acc)
      = fun acc r =>
          ((List.range cols).map (fun c => grid_mass origin cs mv r c)).foldl
            system_add_mass acc := by
    funext acc r
    exact (List.foldl_map _ _ _ _).symm
  rw [hstep, foldl_foldl_eq_flatMap]
  rfl

theorem system_add_spring_masses (s : System) (sp : Spring) (m1 m2 : Nat) :
    (system_add_spring s sp m1 m2).masses = s.masses := by
  by_cases h1 : s.springs.length ≥ SYSTEM_CAPACITY
    <;> by_cases h2 : s.masses.length ≤ m1
    <;> by_cases h3 : s.masses.length ≤ m2
    <;> simp [system_add_spring, h1, h2, h3]

theorem masses_after_ite (P : Prop) [Decidable P] (sy : System) (sp : Spring) (a b : Nat) :
    (if P then system_add_spring sy sp a b else sy).masses = sy.masses := by
  by_cases hP : P
  · rw [if_pos hP, system_add_spring_masses]
  · rw [if_neg hP]

theorem grid_mass_list_zero (cols : Nat) (origin : Vec2) (cs mv : ℝ) :
    grid_mass_list 0 cols origin cs mv = [] := by
  simp [grid_mass_list]

theorem grid_mass_list_succ (rows cols : Nat) (origin : Vec2) (cs mv : ℝ) :
    grid_mass_list (rows + 1) cols origin cs mv
      = grid_mass_list rows cols origin cs mv
          ++ (List.range cols).map (fun c => grid_mass origin cs mv rows c) := by
  simp [grid_mass_list, List.range_succ]

theorem grid_mass_list_length (rows cols : Nat) (origin : Vec2) (cs mv : ℝ) :
    (grid_mass_list rows cols origin cs mv).length = rows * cols := by
  induction rows with
  | zero => simp [grid_mass_list_zero]
  | succ n ih =>
      rw [grid_mass_list_succ]
      simp [ih, Nat.succ_mul]

theorem grid_mass_list_get (cols : Nat) (origin : Vec2) (cs mv : ℝ) :
    ∀ (rows r c : Nat), r < rows → c < cols →
      (grid_mass_list rows cols origin cs mv)[r * cols + c]?
        = some (grid_mass origin cs mv r c) := by
  intro rows
  induction rows with
  | zero => intro r c hr _; exact absurd hr (Nat.not_lt_zero r)
  | succ n ih =>
      intro r c hr hc
      rw [grid_mass_list_succ]
      by_cases hrn : r < n
      · rw [List.getElem?_append_left]
        · exact ih r c hrn hc
        · rw [grid_mass_list_length]
          have hmul : (r + 1) * cols ≤ n * cols := Nat.mul_le_mul_right cols hrn
          have hexp : (r + 1) * cols = r * cols + cols := Nat.succ_mul r cols
          omega
      · have hrEq : r = n := by omega
        subst hrEq
        rw [List.getElem?_append_right]
        · rw [grid_mass_list_length]
          have hidx : r * cols + c - r * cols = c := by omega
          rw [hidx, List.getElem?_map, List.getElem?_range hc]
          rfl
        · rw [grid_mass_list_length]
          omega

theorem init_grid_masses (s : System) (rows cols : Nat) (origin : Vec2)
    (cs mv st dp : ℝ) (hcap : rows * cols ≤ SYSTEM_CAPACITY) :
    (system_init_grid s rows cols origin cs mv st dp).masses
      = grid_mass_list rows cols origin cs mv := by
  simp only [system_init_grid]
  apply foldl_preserves_prop
    (fun sy => sy.masses = grid_mass_list rows cols origin cs mv)
  · intro sy r hsy
    apply foldl_preserves_prop
      (fun sy2 => sy2.masses = grid_mass_list rows cols origin cs mv)
    · intro sy2 c hsy2
      rw [masses_after_ite, masses_after_ite]
      exact hsy2
    · exact hsy
  · rw [phase1_fold_eq]
    have := foldl_add_mass (grid_mass_list rows cols origin cs mv)
      { s with masses := [], springs := [] }
      (by simp [grid_mass_list_length, hcap])
    rw [this.1]
    simp

/-- C3: `buildGrid` clears any existing state (the result is independent
of the starting system) and creates `rows * cols` masses in row-major
order, the mass at index `row * cols + col` sitting at position
`origin + (col, row) * cellSize` with zeroed kinematics, the uniform mass
value, and fixed exactly on row 0; in particular
`buildGrid(2, 2, (0,0), 1, ...)` yields exactly the four masses at
`(0,0), (1,0), (0,1), (1,1)` (the first two fixed) and exactly the four
springs `0-1, 0-2, 1-3, 2-3`, each with rest length `cellSize = 1`. -/
theorem build_grid_row_major :
    (∀ (s : System) (rows cols : Nat) (origin : Vec2) (cs mv st dp : ℝ),
        rows * cols ≤ SYSTEM_CAPACITY →
          (system_init_grid s rows cols origin cs mv st dp).masses.length = rows * cols
            ∧ ∀ r c : Nat, r < rows → c < cols →
                (system_init_grid s rows cols origin cs mv st dp).masses[r * cols + c]?
                  = some { position := Vector2Add origin (Vector2Scale ⟨(c : ℝ), (r : ℝ)⟩ cs)
                           velocity := ⟨0, 0⟩
                           acceleration := ⟨0, 0⟩
                           forces := []
                           mass := mv
                           fixed := decide (r = 0) })
      ∧ (∀ (s : System) (mv st dp : ℝ),
          (system_init_grid s 2 2 ⟨0, 0⟩ 1 mv st dp).masses
              = [⟨⟨0, 0⟩, ⟨0, 0⟩, ⟨0, 0⟩, [], mv, true⟩,
                  ⟨⟨1, 0⟩, ⟨0, 0⟩, ⟨0, 0⟩, [], mv, true⟩,
                  ⟨⟨0, 1⟩, ⟨0, 0⟩, ⟨0, 0⟩, [], mv, false⟩,
                  ⟨⟨1, 1⟩, ⟨0, 0⟩, ⟨0, 0⟩, [], mv, false⟩]
            ∧ (system_init_grid s 2 2 ⟨0, 0⟩ 1 mv st dp).springs
                = [⟨0, 1, 1, st, dp⟩, ⟨0, 2, 1, st, dp⟩,
                    ⟨1, 3, 1, st, dp⟩, ⟨2, 3, 1, st, dp⟩]) := by
  constructor
  · intro s rows cols origin cs mv st dp hcap
    rw [init_grid_masses s rows cols origin cs mv st dp hcap]
    exact ⟨grid_mass_list_length rows cols origin cs mv,
      fun r c hr hc => grid_mass_list_get cols origin cs mv rows r c hr hc⟩
  · intro s mv st dp
    have hr2 : List.range 2 = [0, 1] := rfl
    constructor
    · norm_num [system_init_grid, system_add_mass, system_add_spring, grid_mass,
        grid_spring, hr2, SYSTEM_CAPACITY, Vector2Add, Vector2Scale,
        Vec2.mk.injEq, Mass.mk.injEq]
    · norm_num [system_init_grid, system_add_mass, system_add_spring, grid_mass,
        grid_spring, hr2, SYSTEM_CAPACITY, Vector2Add, Vector2Scale,
        Vec2.mk.injEq, Spring.mk.injEq]

/-- Witness for C3: the general part applied to the 2-by-2 grid built
from the empty system. -/
theorem build_grid_row_major_witness :
    (system_init_grid sEmpty 2 2 ⟨0, 0⟩ 1 1 1 1).masses.length = 2 * 2
      ∧ ∀ r c : Nat, r < 2 → c < 2 →
          (system_init_grid sEmpty 2 2 ⟨0, 0⟩ 1 1 1 1).masses[r * 2 + c]?
            = some { position := Vector2Add ⟨0, 0⟩ (Vector2Scale ⟨(c : ℝ), (r : ℝ)⟩ 1)
                     velocity := ⟨0, 0⟩
                     acceleration := ⟨0, 0⟩
                     forces := []
                     mass := 1
                     fixed := decide (r = 0) } :=
  build_grid_row_major.1 sEmpty 2 2 ⟨0, 0⟩ 1 1 1 1 (by norm_num [SYSTEM_CAPACITY])

end

end Springs
